import Mathlib

/-!
Shallow embedding of the mcp-get configuration subsystem:
the free functions of the unnamed module (`readClaudeConfig`,
`readAmazonQConfig`, `readMergedConfigs`, `writeConfig`,
`installMCPServer`) and the static methods of `ConfigManager`
(`readMergedConfigs`, `writeConfig`, `isPackageInstalled`,
`installPackage`, `uninstallPackage`).

JavaScript objects are modelled as association lists with unique keys in
insertion order; property read takes the first matching key, property
assignment replaces the value in place or appends at the end, `delete`
removes the key.  JavaScript truthiness of JSON values is modelled by
`truthy`.  The filesystem is modelled as the pair of the two host files
(`FS`); a file is missing, malformed (unparseable JSON) or parsed
(`FileState`).  JSON serialization/parsing of well-formed writes is the
identity in this model.  In a parsed file the `mcpServers` property is
the separate `FileContent.mcpServers` field (absent when `none`), and
`FileContent.extra` holds exactly the top-level keys other than
`"mcpServers"`; `mcpServers` entries carry the typed record shape of the
`MCPServerConfig` interface, so as JavaScript object values they are
always truthy.
-/

/-- A JSON value, the type of the host-owned extra top-level properties. -/
inductive JVal where
  | jnull : JVal
  | jbool : Bool → JVal
  | jnum : Int → JVal
  | jstr : String → JVal
  | jarr : List JVal → JVal
  | jobj : List (String × JVal) → JVal

/-- JavaScript truthiness of a JSON value: `null`, `false`, `0` and `""`
are falsy; arrays and objects are always truthy. -/
def truthy : JVal → Bool
  | .jnull => false
  | .jbool b => b
  | .jnum n => n != 0
  | .jstr s => s != ""
  | .jarr _ => true
  | .jobj _ => true

/-- Truthiness of a property read: a missing property (`undefined`) is falsy. -/
def truthyOpt : Option JVal → Bool
  | none => false
  | some v => truthy v

/-- Property read `o[k]`: first entry with the key, `none` for `undefined`. -/
def getKey {α : Type} : List (String × α) → String → Option α
  | [], _ => none
  | (k', v) :: rest, k => if k' = k then some v else getKey rest k

/-- Property assignment `o[k] = v`: replaces in place when the key is
present, otherwise appends at the end (JavaScript insertion order). -/
def setKey {α : Type} : List (String × α) → String → α → List (String × α)
  | [], k, v => [(k, v)]
  | (k', v') :: rest, k, v =>
      if k' = k then (k, v) :: rest else (k', v') :: setKey rest k v

/-- Property deletion `delete o[k]`. -/
def delKey {α : Type} : List (String × α) → String → List (String × α)
  | [], _ => []
  | (k', v') :: rest, k =>
      if k' = k then delKey rest k else (k', v') :: delKey rest k

/-- The two declared runtimes, `'node' | 'python'`. -/
inductive Runtime where
  | node : Runtime
  | python : Runtime
deriving DecidableEq, Repr

/-- One `mcpServers` entry (interfaces `MCPServerConfig` / `MCPServer`;
the union of the two variants' fields, each optional). -/
structure MCPServer where
  runtime : Option Runtime
  command : Option String
  args : Option (List String)
  env : Option (List (String × String))
deriving DecidableEq, Repr

/-- A servers map, `Record<string, MCPServerConfig>` in insertion order. -/
abbrev Servers := List (String × MCPServer)

/-- The host-owned extra top-level properties. -/
abbrev JObj := List (String × JVal)

/-- A parsed host file: the optional `mcpServers` property plus every
other top-level key verbatim. -/
structure FileContent where
  mcpServers : Option Servers
  extra : JObj

/-- The state of one host configuration file on disk. -/
inductive FileState where
  | missing : FileState
  | malformed : FileState
  | parsed : FileContent → FileState

/-- The filesystem as seen by the subsystem: the Claude desktop file and
the Amazon Q file. -/
structure FS where
  claudeFile : FileState
  amazonQFile : FileState

/-- An in-memory host configuration (interfaces `ClaudeConfig` /
`MCPConfig`): the `mcpServers` map plus the other top-level keys. -/
structure HostConfig where
  mcpServers : Servers
  extra : JObj

/-- The `mcpServers` property of a file on disk (`none` when the file is
missing, malformed, or lacks the property). -/
def fileServers : FileState → Option Servers
  | .parsed c => c.mcpServers
  | _ => none

/-- The non-`mcpServers` top-level keys of a file on disk. -/
def fileExtra : FileState → JObj
  | .parsed c => c.extra
  | _ => []

/-- Common body of `readClaudeConfig` and `readAmazonQConfig`: missing
file and parse failure both yield `{ mcpServers: {} }`; a successful
parse yields `{ ...config, mcpServers: config.mcpServers || {} }`. -/
def readHostConfig : FileState → HostConfig
  | .missing => ⟨[], []⟩
  | .malformed => ⟨[], []⟩
  | .parsed c => ⟨c.mcpServers.getD [], c.extra⟩

/-- `readClaudeConfig()` of the unnamed module. -/
def readClaudeConfig (fs : FS) : HostConfig :=
  readHostConfig fs.claudeFile

/-- `readAmazonQConfig()` of the unnamed module. -/
def readAmazonQConfig (fs : FS) : HostConfig :=
  readHostConfig fs.amazonQFile

/-- The merge loops shared by both `readMergedConfigs` variants.  Starting
from `{ mcpServers: {} }`: copy every non-`mcpServers` key of the Claude
config, then every non-`mcpServers` key of the Amazon Q config whose
current merged value is not truthy (`!mergedConfig[key]`); copy every
Claude server entry, then every Amazon Q server entry whose name is not
yet bound (`!mergedConfig.mcpServers[serverName]`; entries are objects,
hence truthy exactly when present). -/
def mergeConfigs (claudeConfig amazonQConfig : HostConfig) : HostConfig :=
  let extra1 := claudeConfig.extra.foldl (fun acc kv => setKey acc kv.1 kv.2) []
  let extra2 := amazonQConfig.extra.foldl
    (fun acc kv => if truthyOpt (getKey acc kv.1) then acc else setKey acc kv.1 kv.2)
    extra1
  let servers1 := claudeConfig.mcpServers.foldl (fun acc kv => setKey acc kv.1 kv.2) []
  let servers2 := amazonQConfig.mcpServers.foldl
    (fun acc kv => if (getKey acc kv.1).isSome then acc else setKey acc kv.1 kv.2)
    servers1
  ⟨servers2, extra2⟩

/-- `readMergedConfigs()` of the unnamed module (the
`if (!mergedConfig.mcpServers)` re-initialization there is a no-op:
the merged `mcpServers` is always an object at that point). -/
def readMergedConfigs (fs : FS) : HostConfig :=
  mergeConfigs (readClaudeConfig fs) (readAmazonQConfig fs)

/-- One host write of `writeConfig`: parse the existing file (missing or
malformed becomes `{ mcpServers: {} }`), drop its `mcpServers`, and
overwrite the file with the retained keys plus the given servers map. -/
def writeHostFile (st : FileState) (servers : Servers) : FileState :=
  .parsed ⟨some servers, fileExtra st⟩

/-- `writeConfig(config)` of the unnamed module: write the config's
`mcpServers` to both host files, each retaining its own other keys. -/
def writeConfig (fs : FS) (config : HostConfig) : FS :=
  ⟨writeHostFile fs.claudeFile config.mcpServers,
   writeHostFile fs.amazonQFile config.mcpServers⟩

/-- `packageName.replace(/\//g, '-')`: every `/` character becomes `-`. -/
def replaceSlashes (s : String) : String :=
  ⟨s.data.map (fun c => if c = '/' then '-' else c)⟩

/-- `installMCPServer(packageName, envVars?, runtime?)` of the unnamed
module.  `registryRuntime` stands for the external
`loadPackage(packageName)?.runtime` lookup (`'node'` when absent) and
`uvxPath` for the result of the `which uvx` shell lookup (`none` when
the lookup fails, falling back to the bare `'uvx'`). -/
def installMCPServer (fs : FS) (packageName : String)
    (envVars : Option (List (String × String))) (runtime : Option Runtime)
    (registryRuntime : Option Runtime) (uvxPath : Option String) : FS :=
  let config := readMergedConfigs fs
  let serverName := replaceSlashes packageName
  let effectiveRuntime := runtime.getD (registryRuntime.getD .node)
  let command := match effectiveRuntime with
    | .python => uvxPath.getD "uvx"
    | .node => "npx"
  let serverConfig : MCPServer :=
    ⟨some effectiveRuntime, some command,
     some (match effectiveRuntime with
           | .python => [packageName]
           | .node => ["-y", packageName]),
     envVars⟩
  writeConfig fs ⟨setKey config.mcpServers serverName serverConfig, config.extra⟩

namespace ConfigManager

/-- `ConfigManager.readClaudeConfig()`. -/
def readClaudeConfig (fs : FS) : HostConfig :=
  readHostConfig fs.claudeFile

/-- `ConfigManager.readAmazonQConfig()`. -/
def readAmazonQConfig (fs : FS) : HostConfig :=
  readHostConfig fs.amazonQFile

/-- The merge loops of `ConfigManager.readMergedConfigs`, written out
independently of the unnamed module's variant: the two sources are
line-for-line identical except that this one omits the other's no-op
re-initialization of `mergedConfig.mcpServers`. -/
def mergeConfigs (claudeConfig amazonQConfig : HostConfig) : HostConfig :=
  let extra1 := claudeConfig.extra.foldl (fun acc kv => setKey acc kv.1 kv.2) []
  let extra2 := amazonQConfig.extra.foldl
    (fun acc kv => if truthyOpt (getKey acc kv.1) then acc else setKey acc kv.1 kv.2)
    extra1
  let servers1 := claudeConfig.mcpServers.foldl (fun acc kv => setKey acc kv.1 kv.2) []
  let servers2 := amazonQConfig.mcpServers.foldl
    (fun acc kv => if (getKey acc kv.1).isSome then acc else setKey acc kv.1 kv.2)
    servers1
  ⟨servers2, extra2⟩

/-- `ConfigManager.readMergedConfigs()`. -/
def readMergedConfigs (fs : FS) : HostConfig :=
  ConfigManager.mergeConfigs (ConfigManager.readClaudeConfig fs) (ConfigManager.readAmazonQConfig fs)

/-- One host write of `ConfigManager.writeConfig`: the existing parse is
taken as `{ ...parsed, mcpServers: {} }` and then overwritten with the
given servers map, so the retained keys are the same as in the unnamed
module's variant. -/
def writeHostFile (st : FileState) (servers : Servers) : FileState :=
  .parsed ⟨some servers, fileExtra st⟩

/-- `ConfigManager.writeConfig(config)`. -/
def writeConfig (fs : FS) (config : HostConfig) : FS :=
  ⟨ConfigManager.writeHostFile fs.claudeFile config.mcpServers,
   ConfigManager.writeHostFile fs.amazonQFile config.mcpServers⟩

/-- `ConfigManager.isPackageInstalled(packageName)`: the dash form or the
raw name is a key (`in`) of the merged `mcpServers` map. -/
def isPackageInstalled (fs : FS) (packageName : String) : Bool :=
  let config := ConfigManager.readMergedConfigs fs
  let serverName := replaceSlashes packageName
  (getKey config.mcpServers serverName).isSome || (getKey config.mcpServers packageName).isSome

/-- `ConfigManager.installPackage(pkg, envVars?)`: command and args are
chosen from the package's declared runtime (`npx -y` for node, `uvx` for
python). -/
def installPackage (fs : FS) (pkgName : String) (pkgRuntime : Runtime)
    (envVars : Option (List (String × String))) : FS :=
  let config := ConfigManager.readMergedConfigs fs
  let serverName := replaceSlashes pkgName
  let serverConfig : MCPServer := match pkgRuntime with
    | .node => ⟨some .node, some "npx", some ["-y", pkgName], envVars⟩
    | .python => ⟨some .python, some "uvx", some [pkgName], envVars⟩
  ConfigManager.writeConfig fs ⟨setKey config.mcpServers serverName serverConfig, config.extra⟩

/-- `ConfigManager.uninstallPackage(packageName)`.  Returns the new
filesystem and whether the "is not installed" message was printed (the
`!config.mcpServers` guard of the source is dead: the merged `mcpServers`
is always an object).  Deletes the dash-form entry when present, else the
raw-name entry when present, then writes; otherwise reports and skips the
write. -/
def uninstallPackage (fs : FS) (packageName : String) : FS × Bool :=
  let config := ConfigManager.readMergedConfigs fs
  let serverName := replaceSlashes packageName
  if (getKey config.mcpServers serverName).isSome then
    (ConfigManager.writeConfig fs ⟨delKey config.mcpServers serverName, config.extra⟩, false)
  else if (getKey config.mcpServers packageName).isSome then
    (ConfigManager.writeConfig fs ⟨delKey config.mcpServers packageName, config.extra⟩, false)
  else
    (fs, true)

end ConfigManager

/-- Concrete fixture: a node-runtime server entry. -/
def entryNodeA : MCPServer := ⟨some .node, some "npx", some ["-y", "pkg/a"], none⟩

/-- Concrete fixture: a python-runtime server entry. -/
def entryPyB : MCPServer := ⟨some .python, some "uvx", some ["pkg/a"], none⟩

/-- Concrete fixture: both host files absent. -/
def fsEmpty : FS := ⟨.missing, .missing⟩

/-- Concrete fixture: a Claude file holding entries under both the dash
form and the raw slash form of the package name `a/b`. -/
def fsLegacy : FS :=
  ⟨.parsed ⟨some [("a-b", entryNodeA), ("a/b", entryPyB)], []⟩, .missing⟩

/-! ### Association-list lemmas -/

/-- First-defined choice between two optional property reads. -/
def firstSome {α : Type} : Option α → Option α → Option α
  | some v, _ => some v
  | none, b => b

theorem firstSome_none {α : Type} (b : Option α) : firstSome none b = b := rfl

theorem firstSome_some {α : Type} (v : α) (b : Option α) :
    firstSome (some v) b = some v := rfl

theorem getKey_setKey_self {α : Type} (o : List (String × α)) (k : String) (v : α) :
    getKey (setKey o k v) k = some v := by
  induction o with
  | nil => simp [setKey, getKey]
  | cons p rest ih =>
      obtain ⟨k', v'⟩ := p
      by_cases h : k' = k
      · simp [setKey, h, getKey]
      · simp [setKey, h, getKey, ih]

theorem getKey_setKey_ne {α : Type} (o : List (String × α)) (k n : String) (v : α)
    (h : k ≠ n) : getKey (setKey o k v) n = getKey o n := by
  induction o with
  | nil => simp [setKey, getKey, h]
  | cons p rest ih =>
      obtain ⟨k', v'⟩ := p
      by_cases hk : k' = k
      · simp [setKey, hk, getKey, h]
      · by_cases hn : k' = n
        · simp [setKey, hk, getKey, hn, Ne.symm h]
        · simp [setKey, hk, getKey, hn, ih]

theorem getKey_delKey_self {α : Type} (o : List (String × α)) (k : String) :
    getKey (delKey o k) k = none := by
  induction o with
  | nil => simp [delKey, getKey]
  | cons p rest ih =>
      obtain ⟨k', v'⟩ := p
      by_cases h : k' = k
      · simp [delKey, h, ih]
      · simp [delKey, h, getKey, ih]

theorem getKey_delKey_ne {α : Type} (o : List (String × α)) (k n : String)
    (h : k ≠ n) : getKey (delKey o k) n = getKey o n := by
  induction o with
  | nil => simp [delKey]
  | cons p rest ih =>
      obtain ⟨k', v'⟩ := p
      by_cases hk : k' = k
      · subst hk
        simp [delKey, getKey, h, ih]
      · by_cases hn : k' = n
        · subst hn
          simp [delKey, Ne.symm h, getKey]
        · simp [delKey, hk, getKey, hn, ih]

theorem getKey_eq_none_of_not_mem {α : Type} (o : List (String × α)) (n : String)
    (h : n ∉ o.map Prod.fst) : getKey o n = none := by
  induction o with
  | nil => simp [getKey]
  | cons p rest ih =>
      obtain ⟨k', v'⟩ := p
      simp only [List.map_cons, List.mem_cons] at h
      push_neg at h
      have hk : ¬ k' = n := fun hh => h.1 hh.symm
      simp [getKey, hk, ih h.2]

theorem getKey_isSome_of_mem {α : Type} (o : List (String × α)) (n : String)
    (h : n ∈ o.map Prod.fst) : (getKey o n).isSome := by
  induction o with
  | nil => simp at h
  | cons p rest ih =>
      obtain ⟨k', v'⟩ := p
      by_cases hk : k' = n
      · simp [getKey, hk]
      · simp only [List.map_cons, List.mem_cons] at h
        rcases h with h | h
        · exact absurd h.symm hk
        · simp [getKey, hk, ih h]

theorem mem_keys_setKey {α : Type} (o : List (String × α)) (k n : String) (v : α) :
    n ∈ (setKey o k v).map Prod.fst ↔ n ∈ o.map Prod.fst ∨ n = k := by
  induction o with
  | nil => simp [setKey]
  | cons p rest ih =>
      obtain ⟨k', v'⟩ := p
      by_cases hk : k' = k
      · subst hk
        simp [setKey]
        tauto
      · simp [setKey, hk, ih]
        tauto

theorem nodup_setKey {α : Type} (o : List (String × α)) (k : String) (v : α)
    (h : (o.map Prod.fst).Nodup) : ((setKey o k v).map Prod.fst).Nodup := by
  induction o with
  | nil => simp [setKey]
  | cons p rest ih =>
      obtain ⟨k', v'⟩ := p
      simp only [List.map_cons, List.nodup_cons] at h
      by_cases hk : k' = k
      · rw [show setKey ((k', v') :: rest) k v = (k, v) :: rest by simp [setKey, hk]]
        simp only [List.map_cons, List.nodup_cons]
        rw [hk] at h
        exact h
      · rw [show setKey ((k', v') :: rest) k v = (k', v') :: setKey rest k v by
              simp [setKey, hk]]
        simp only [List.map_cons, List.nodup_cons]
        refine ⟨fun hmem => ?_, ih h.2⟩
        rcases (mem_keys_setKey rest k k' v).mp hmem with hm | hm
        · exact h.1 hm
        · exact hk hm

theorem mem_keys_delKey {α : Type} (o : List (String × α)) (k n : String)
    (h : n ∈ (delKey o k).map Prod.fst) : n ∈ o.map Prod.fst := by
  induction o with
  | nil => simp [delKey] at h
  | cons p rest ih =>
      obtain ⟨k', v'⟩ := p
      by_cases hk : k' = k
      · simp only [delKey, if_pos hk] at h
        simp [ih h]
      · simp only [delKey, if_neg hk, List.map_cons, List.mem_cons] at h
        rcases h with h | h
        · simp [h]
        · simp [ih h]

theorem nodup_delKey {α : Type} (o : List (String × α)) (k : String)
    (h : (o.map Prod.fst).Nodup) : ((delKey o k).map Prod.fst).Nodup := by
  induction o with
  | nil => simp [delKey]
  | cons p rest ih =>
      obtain ⟨k', v'⟩ := p
      simp only [List.map_cons, List.nodup_cons] at h
      by_cases hk : k' = k
      · simp [delKey, hk, ih h.2]
      · simp only [delKey, if_neg hk, List.map_cons, List.nodup_cons]
        exact ⟨fun hm => h.1 (mem_keys_delKey rest k k' hm), ih h.2⟩

theorem setKey_eq_self {α : Type} (o : List (String × α)) (k : String) (v : α)
    (h : getKey o k = some v) : setKey o k v = o := by
  induction o with
  | nil => simp [getKey] at h
  | cons p rest ih =>
      obtain ⟨k', v'⟩ := p
      by_cases hk : k' = k
      · simp only [getKey, if_pos hk, Option.some.injEq] at h
        simp [setKey, hk, h]
      · simp only [getKey, if_neg hk] at h
        simp [setKey, hk, ih h]

theorem setKey_eq_append {α : Type} (o : List (String × α)) (k : String) (v : α)
    (h : getKey o k = none) : setKey o k v = o ++ [(k, v)] := by
  induction o with
  | nil => simp [setKey]
  | cons p rest ih =>
      obtain ⟨k', v'⟩ := p
      by_cases hk : k' = k
      · simp [getKey, hk] at h
      · simp only [getKey, if_neg hk] at h
        simp [setKey, hk, ih h]

theorem getKey_append {α : Type} (o1 o2 : List (String × α)) (n : String) :
    getKey (o1 ++ o2) n = firstSome (getKey o1 n) (getKey o2 n) := by
  induction o1 with
  | nil => simp [getKey, firstSome]
  | cons p rest ih =>
      obtain ⟨k', v'⟩ := p
      by_cases hk : k' = n
      · simp [getKey, hk, firstSome]
      · simp [getKey, hk, ih]

/-! ### Lemmas about the merge loops -/

theorem foldl_setKey_nodup {α : Type} (l : List (String × α))
    (init : List (String × α)) (h : (init.map Prod.fst).Nodup) :
    ((l.foldl (fun acc kv => setKey acc kv.1 kv.2) init).map Prod.fst).Nodup := by
  induction l generalizing init with
  | nil => simpa using h
  | cons p rest ih =>
      simp only [List.foldl_cons]
      exact ih _ (nodup_setKey _ _ _ h)

theorem foldl_guard_nodup {α : Type} (l : List (String × α))
    (init : List (String × α)) (h : (init.map Prod.fst).Nodup) :
    ((l.foldl
        (fun acc kv => if (getKey acc kv.1).isSome then acc else setKey acc kv.1 kv.2)
        init).map Prod.fst).Nodup := by
  induction l generalizing init with
  | nil => simpa using h
  | cons p rest ih =>
      simp only [List.foldl_cons]
      by_cases hg : (getKey init p.1).isSome
      · rw [if_pos hg]
        exact ih _ h
      · rw [if_neg hg]
        exact ih _ (nodup_setKey _ _ _ h)

theorem foldl_truthyGuard_nodup (l : JObj) (init : JObj)
    (h : (init.map Prod.fst).Nodup) :
    ((l.foldl
        (fun acc kv => if truthyOpt (getKey acc kv.1) then acc else setKey acc kv.1 kv.2)
        init).map Prod.fst).Nodup := by
  induction l generalizing init with
  | nil => simpa using h
  | cons p rest ih =>
      simp only [List.foldl_cons]
      by_cases hg : truthyOpt (getKey init p.1)
      · rw [if_pos hg]
        exact ih _ h
      · rw [if_neg hg]
        exact ih _ (nodup_setKey _ _ _ h)

theorem getKey_foldl_setKey {α : Type} (l : List (String × α))
    (init : List (String × α)) (n : String) (hl : (l.map Prod.fst).Nodup) :
    getKey (l.foldl (fun acc kv => setKey acc kv.1 kv.2) init) n
      = firstSome (getKey l n) (getKey init n) := by
  induction l generalizing init with
  | nil => simp [getKey, firstSome]
  | cons p rest ih =>
      obtain ⟨k, v⟩ := p
      simp only [List.map_cons, List.nodup_cons] at hl
      simp only [List.foldl_cons]
      rw [ih (setKey init k v) hl.2]
      by_cases hk : k = n
      · subst hk
        have hrest : getKey rest k = none := getKey_eq_none_of_not_mem rest k hl.1
        simp [getKey, hrest, firstSome, getKey_setKey_self]
      · simp [getKey, hk, getKey_setKey_ne init k n v hk]

theorem getKey_foldl_guard {α : Type} (l : List (String × α))
    (init : List (String × α)) (n : String) :
    getKey (l.foldl
        (fun acc kv => if (getKey acc kv.1).isSome then acc else setKey acc kv.1 kv.2)
        init) n
      = firstSome (getKey init n) (getKey l n) := by
  induction l generalizing init with
  | nil => cases h : getKey init n <;> simp [getKey, firstSome, h]
  | cons p rest ih =>
      obtain ⟨k, v⟩ := p
      simp only [List.foldl_cons]
      by_cases hg : (getKey init k).isSome
      · rw [if_pos hg, ih init]
        by_cases hk : k = n
        · subst hk
          obtain ⟨w, hw⟩ := Option.isSome_iff_exists.mp hg
          simp [getKey, hw, firstSome]
        · simp [getKey, hk]
      · rw [if_neg hg, ih (setKey init k v)]
        by_cases hk : k = n
        · subst hk
          have h0 : getKey init k = none := Option.not_isSome_iff_eq_none.mp hg
          simp [getKey, h0, firstSome, getKey_setKey_self]
        · simp [getKey, hk, getKey_setKey_ne init k n v hk]

theorem getKey_foldl_truthyGuard (l : JObj) (init : JObj) (n : String)
    (hl : (l.map Prod.fst).Nodup) :
    getKey (l.foldl
        (fun acc kv => if truthyOpt (getKey acc kv.1) then acc else setKey acc kv.1 kv.2)
        init) n
      = if truthyOpt (getKey init n) then getKey init n
        else firstSome (getKey l n) (getKey init n) := by
  induction l generalizing init with
  | nil =>
      by_cases h : truthyOpt (getKey init n) <;> simp [getKey, firstSome, h]
  | cons p rest ih =>
      obtain ⟨k, v⟩ := p
      simp only [List.map_cons, List.nodup_cons] at hl
      simp only [List.foldl_cons]
      by_cases hg : truthyOpt (getKey init k)
      · rw [if_pos hg, ih init hl.2]
        by_cases hk : k = n
        · subst hk
          simp [getKey, hg, firstSome]
        · simp [getKey, hk]
      · rw [if_neg hg, ih (setKey init k v) hl.2]
        by_cases hk : k = n
        · subst hk
          have hrest : getKey rest k = none := getKey_eq_none_of_not_mem rest k hl.1
          have hset : getKey (setKey init k v) k = some v := getKey_setKey_self init k v
          rw [if_neg hg]
          by_cases htv : truthy v <;>
            simp [getKey, hrest, hset, firstSome, truthyOpt, htv]
        · simp [getKey, hk, getKey_setKey_ne init k n v hk]

theorem foldl_setKey_append {α : Type} (l : List (String × α))
    (init : List (String × α)) (hl : (l.map Prod.fst).Nodup)
    (hd : ∀ p ∈ l, getKey init p.1 = none) :
    l.foldl (fun acc kv => setKey acc kv.1 kv.2) init = init ++ l := by
  induction l generalizing init with
  | nil => simp
  | cons p rest ih =>
      obtain ⟨k, v⟩ := p
      simp only [List.map_cons, List.nodup_cons] at hl
      simp only [List.foldl_cons]
      rw [setKey_eq_append init k v (hd (k, v) (List.mem_cons_self _ _))]
      have hd' : ∀ q ∈ rest, getKey (init ++ [(k, v)]) q.1 = none := by
        intro q hq
        have hne : ¬ k = q.1 := fun hh => hl.1 (hh ▸ List.mem_map_of_mem Prod.fst hq)
        rw [getKey_append, hd q (List.mem_cons_of_mem _ hq)]
        simp [firstSome, getKey, hne]
      rw [ih (init ++ [(k, v)]) hl.2 hd', List.append_assoc]
      simp

theorem foldl_setKey_nil {α : Type} (l : List (String × α))
    (hl : (l.map Prod.fst).Nodup) :
    l.foldl (fun acc kv => setKey acc kv.1 kv.2) [] = l := by
  have h := foldl_setKey_append l [] hl (fun p _ => by simp [getKey])
  simpa using h

theorem foldl_guard_skip {α : Type} (l : List (String × α))
    (init : List (String × α)) (h : ∀ p ∈ l, (getKey init p.1).isSome) :
    l.foldl
        (fun acc kv => if (getKey acc kv.1).isSome then acc else setKey acc kv.1 kv.2)
        init = init := by
  induction l with
  | nil => simp
  | cons p rest ih =>
      simp only [List.foldl_cons, if_pos (h p (List.mem_cons_self _ _))]
      exact ih (fun q hq => h q (List.mem_cons_of_mem _ hq))

theorem mergeConfigs_servers_eq (a b : HostConfig) :
    (mergeConfigs a b).mcpServers
      = b.mcpServers.foldl
          (fun acc kv => if (getKey acc kv.1).isSome then acc else setKey acc kv.1 kv.2)
          (a.mcpServers.foldl (fun acc kv => setKey acc kv.1 kv.2) []) := rfl

theorem mergeConfigs_extra_eq (a b : HostConfig) :
    (mergeConfigs a b).extra
      = b.extra.foldl
          (fun acc kv => if truthyOpt (getKey acc kv.1) then acc else setKey acc kv.1 kv.2)
          (a.extra.foldl (fun acc kv => setKey acc kv.1 kv.2) []) := rfl

theorem mergeConfigs_servers_getKey (a b : HostConfig) (n : String)
    (ha : (a.mcpServers.map Prod.fst).Nodup) :
    getKey (mergeConfigs a b).mcpServers n
      = firstSome (getKey a.mcpServers n) (getKey b.mcpServers n) := by
  have h1 : getKey (a.mcpServers.foldl (fun acc kv => setKey acc kv.1 kv.2) []) n
      = getKey a.mcpServers n := by
    rw [getKey_foldl_setKey a.mcpServers [] n ha]
    cases h : getKey a.mcpServers n <;> simp [firstSome, getKey, h]
  rw [mergeConfigs_servers_eq, getKey_foldl_guard, h1]

theorem mergeConfigs_servers_nodup (a b : HostConfig) :
    ((mergeConfigs a b).mcpServers.map Prod.fst).Nodup := by
  rw [mergeConfigs_servers_eq]
  exact foldl_guard_nodup _ _ (foldl_setKey_nodup _ [] (by simp))

theorem mergeConfigs_extra_nodup (a b : HostConfig) :
    ((mergeConfigs a b).extra.map Prod.fst).Nodup := by
  rw [mergeConfigs_extra_eq]
  exact foldl_truthyGuard_nodup _ _ (foldl_setKey_nodup _ [] (by simp))

theorem mergeConfigs_extra_getKey (a b : HostConfig) (k : String)
    (ha : (a.extra.map Prod.fst).Nodup) (hb : (b.extra.map Prod.fst).Nodup) :
    getKey (mergeConfigs a b).extra k
      = if truthyOpt (getKey a.extra k) then getKey a.extra k
        else firstSome (getKey b.extra k) (getKey a.extra k) := by
  have h1 : getKey (a.extra.foldl (fun acc kv => setKey acc kv.1 kv.2) []) k
      = getKey a.extra k := by
    rw [getKey_foldl_setKey a.extra [] k ha]
    cases h : getKey a.extra k <;> simp [firstSome, getKey, h]
  rw [mergeConfigs_extra_eq, getKey_foldl_truthyGuard _ _ _ hb, h1]

theorem mergeConfigs_servers_self (M : Servers) (e1 e2 : JObj)
    (h : (M.map Prod.fst).Nodup) :
    (mergeConfigs ⟨M, e1⟩ ⟨M, e2⟩).mcpServers = M := by
  rw [mergeConfigs_servers_eq]
  show M.foldl _ (M.foldl _ []) = M
  rw [foldl_setKey_nil M h]
  exact foldl_guard_skip M M
    (fun p hp => getKey_isSome_of_mem M p.1 (List.mem_map_of_mem Prod.fst hp))

/-! ### Shared facts about the operations -/

theorem readMerged_variants_eq (fs : FS) :
    ConfigManager.readMergedConfigs fs = readMergedConfigs fs := rfl

theorem configManager_write_eq (fs : FS) (c : HostConfig) :
    ConfigManager.writeConfig fs c = writeConfig fs c := rfl

theorem readMergedConfigs_servers_nodup (fs : FS) :
    ((readMergedConfigs fs).mcpServers.map Prod.fst).Nodup :=
  mergeConfigs_servers_nodup _ _

theorem readMergedConfigs_writeConfig (fs : FS) (c : HostConfig) :
    readMergedConfigs (writeConfig fs c)
      = mergeConfigs ⟨c.mcpServers, fileExtra fs.claudeFile⟩
          ⟨c.mcpServers, fileExtra fs.amazonQFile⟩ := rfl

theorem writeConfig_then_merge_servers (fs : FS) (M : Servers) (x : JObj)
    (h : (M.map Prod.fst).Nodup) :
    (readMergedConfigs (writeConfig fs ⟨M, x⟩)).mcpServers = M := by
  rw [readMergedConfigs_writeConfig]
  exact mergeConfigs_servers_self _ _ _ h

theorem writeConfig_writeConfig (fs : FS) (M M' : Servers) (x y : JObj)
    (h : M' = M) :
    writeConfig (writeConfig fs ⟨M, x⟩) ⟨M', y⟩ = writeConfig fs ⟨M, x⟩ := by
  subst h
  simp [writeConfig, writeHostFile, fileExtra]

theorem installMCPServer_eq (fs : FS) (name : String)
    (env : Option (List (String × String))) (rt : Runtime)
    (reg : Option Runtime) (uvx : Option String) :
    installMCPServer fs name env (some rt) reg uvx
      = writeConfig fs
          ⟨setKey (readMergedConfigs fs).mcpServers (replaceSlashes name)
              ⟨some rt,
               some (match rt with | .python => uvx.getD "uvx" | .node => "npx"),
               some (match rt with | .python => [name] | .node => ["-y", name]),
               env⟩,
           (readMergedConfigs fs).extra⟩ := rfl

theorem installMCPServer_node_eq (fs : FS) (name : String)
    (env : Option (List (String × String)))
    (reg : Option Runtime) (uvx : Option String) :
    installMCPServer fs name env (some .node) reg uvx
      = writeConfig fs
          ⟨setKey (readMergedConfigs fs).mcpServers (replaceSlashes name)
              ⟨some .node, some "npx", some ["-y", name], env⟩,
           (readMergedConfigs fs).extra⟩ := rfl

theorem configManager_installPackage_eq (fs : FS) (name : String)
    (rt : Runtime) (env : Option (List (String × String))) :
    ConfigManager.installPackage fs name rt env
      = ConfigManager.writeConfig fs
          ⟨setKey (ConfigManager.readMergedConfigs fs).mcpServers (replaceSlashes name)
              (match rt with
               | .node => ⟨some .node, some "npx", some ["-y", name], env⟩
               | .python => ⟨some .python, some "uvx", some [name], env⟩),
           (ConfigManager.readMergedConfigs fs).extra⟩ := rfl

/-! ### The claims -/

/-- C1: After a successful `writeConfig` of a merged configuration, both
host files hold an `mcpServers` map equal to the configuration's
`mcpServers`, and each file keeps its own pre-existing non-`mcpServers`
top-level keys unchanged. -/
theorem writeConfig_syncs_both_hosts (fs : FS) (config : HostConfig) :
    fileServers ((writeConfig fs config).claudeFile) = some config.mcpServers ∧
    fileServers ((writeConfig fs config).amazonQFile) = some config.mcpServers ∧
    fileExtra ((writeConfig fs config).claudeFile) = fileExtra fs.claudeFile ∧
    fileExtra ((writeConfig fs config).amazonQFile) = fileExtra fs.amazonQFile :=
  ⟨rfl, rfl, rfl, rfl⟩

/-- C2: In the merged configuration, a server name bound in the primary
(Claude) host's map is bound to the primary's entry (primary wins on
overlap), and a name absent from the primary is bound to the secondary
host's entry unchanged. -/
theorem merge_servers_primary_wins (a b : HostConfig) (n : String)
    (ha : (a.mcpServers.map Prod.fst).Nodup) :
    ((getKey a.mcpServers n).isSome →
        getKey (mergeConfigs a b).mcpServers n = getKey a.mcpServers n) ∧
    (getKey a.mcpServers n = none →
        getKey (mergeConfigs a b).mcpServers n = getKey b.mcpServers n) := by
  constructor
  · intro h
    rw [mergeConfigs_servers_getKey a b n ha]
    obtain ⟨w, hw⟩ := Option.isSome_iff_exists.mp h
    simp [hw, firstSome]
  · intro h
    rw [mergeConfigs_servers_getKey a b n ha, h, firstSome_none]

theorem merge_servers_primary_wins_witness :
    getKey (mergeConfigs ⟨[("s", entryNodeA)], []⟩ ⟨[("s", entryPyB)], []⟩).mcpServers "s"
      = some entryNodeA := by
  have h := (merge_servers_primary_wins ⟨[("s", entryNodeA)], []⟩
      ⟨[("s", entryPyB)], []⟩ "s" (by simp)).1 (by decide)
  rw [h]
  rfl

/-- C3 counterexample: the claim says the primary host's value survives
every key collision on a non-`mcpServers` key, but with the primary
holding the falsy value `false` under "theme" the secondary's value ends
up in the merged result. -/
theorem merge_extra_primary_wins_cex :
    getKey (mergeConfigs ⟨[], [("theme", JVal.jbool false)]⟩
        ⟨[], [("theme", JVal.jstr "dark")]⟩).extra "theme"
      = some (JVal.jstr "dark") ∧
    getKey (HostConfig.mk [] [("theme", JVal.jbool false)]).extra "theme"
      = some (JVal.jbool false) ∧
    JVal.jstr "dark" ≠ JVal.jbool false :=
  ⟨rfl, rfl, fun h => JVal.noConfusion h⟩

/-- C3 (amended): a non-`mcpServers` top-level key of the secondary host
is copied into the merged result only if the result's current value at
that key is not truthy; hence the primary's value wins whenever it is
truthy (and whenever the secondary lacks the key), while a falsy primary
value (`false`, `0`, `""`, `null`) is overwritten by the secondary's
entry. -/
theorem merge_extra_truthy_precedence (a b : HostConfig) (k : String)
    (ha : (a.extra.map Prod.fst).Nodup) (hb : (b.extra.map Prod.fst).Nodup) :
    (truthyOpt (getKey a.extra k) = true →
        getKey (mergeConfigs a b).extra k = getKey a.extra k) ∧
    (truthyOpt (getKey a.extra k) = false → (getKey b.extra k).isSome →
        getKey (mergeConfigs a b).extra k = getKey b.extra k) ∧
    (getKey b.extra k = none →
        getKey (mergeConfigs a b).extra k = getKey a.extra k) := by
  refine ⟨?_, ?_, ?_⟩
  · intro ht
    rw [mergeConfigs_extra_getKey a b k ha hb, if_pos ht]
  · intro ht hbk
    rw [mergeConfigs_extra_getKey a b k ha hb, if_neg (by simp [ht])]
    obtain ⟨w, hw⟩ := Option.isSome_iff_exists.mp hbk
    simp [hw, firstSome]
  · intro hbk
    rw [mergeConfigs_extra_getKey a b k ha hb, hbk, firstSome_none]
    by_cases ht : truthyOpt (getKey a.extra k) <;> simp [ht]

theorem merge_extra_truthy_precedence_witness :
    getKey (mergeConfigs ⟨[], [("x", JVal.jstr "v")]⟩
        ⟨[], [("x", JVal.jstr "w")]⟩).extra "x" = some (JVal.jstr "v") := by
  have h := (merge_extra_truthy_precedence ⟨[], [("x", JVal.jstr "v")]⟩
      ⟨[], [("x", JVal.jstr "w")]⟩ "x" (by simp) (by simp)).1 (by rfl)
  rw [h]
  rfl

/-- C4: reading one host's file never raises (the reader is a total
function into host configurations): a missing file and a malformed file
both give `{ mcpServers: {} }`, and a successful parse gives the parsed
object with `mcpServers` defaulted to `{}` when absent and every other
top-level key preserved verbatim. -/
theorem readHostConfig_defensive :
    readHostConfig .missing = ⟨[], []⟩ ∧
    readHostConfig .malformed = ⟨[], []⟩ ∧
    (∀ e : JObj, readHostConfig (.parsed ⟨none, e⟩) = ⟨[], e⟩) ∧
    (∀ (m : Servers) (e : JObj), readHostConfig (.parsed ⟨some m, e⟩) = ⟨m, e⟩) :=
  ⟨rfl, rfl, fun _ => rfl, fun _ _ => rfl⟩

/-- C5: installing a slash-containing package with runtime node and empty
env makes `isPackageInstalled` of the original name true, and the merged
`mcpServers` map holds, under the dash-form key, exactly
`{runtime: node, command: npx, args: [-y, name], env: {}}`. -/
theorem install_node_then_installed (fs : FS) (name : String)
    (reg : Option Runtime) (uvx : Option String)
    (_hslash : '/' ∈ name.data) :
    ConfigManager.isPackageInstalled
        (installMCPServer fs name (some []) (some .node) reg uvx) name = true ∧
    getKey (readMergedConfigs
        (installMCPServer fs name (some []) (some .node) reg uvx)).mcpServers
        (replaceSlashes name)
      = some ⟨some .node, some "npx", some ["-y", name], some []⟩ := by
  have hsrv : (readMergedConfigs
      (installMCPServer fs name (some []) (some .node) reg uvx)).mcpServers
      = setKey (readMergedConfigs fs).mcpServers (replaceSlashes name)
          ⟨some .node, some "npx", some ["-y", name], some []⟩ := by
    rw [installMCPServer_node_eq]
    exact writeConfig_then_merge_servers _ _ _
      (nodup_setKey _ _ _ (readMergedConfigs_servers_nodup fs))
  constructor
  · simp only [ConfigManager.isPackageInstalled, readMerged_variants_eq]
    rw [hsrv, getKey_setKey_self]
    simp
  · rw [hsrv, getKey_setKey_self]

theorem install_node_then_installed_witness :
    ConfigManager.isPackageInstalled
        (installMCPServer fsEmpty "foo/bar" (some []) (some .node) none none)
        "foo/bar" = true :=
  (install_node_then_installed fsEmpty "foo/bar" none none (by decide)).1

/-- C6: uninstall removes the entry stored under the dash form of the
name when present, else the entry under the raw slash form when present,
and then writes both host files with the shrunken map; when neither key
is bound it reports "not installed" and leaves the filesystem unchanged
(zero writes). -/
theorem uninstall_removes_or_reports (fs : FS) (name : String) :
    ((getKey (ConfigManager.readMergedConfigs fs).mcpServers (replaceSlashes name)).isSome →
        fileServers (ConfigManager.uninstallPackage fs name).1.claudeFile
          = some (delKey (ConfigManager.readMergedConfigs fs).mcpServers (replaceSlashes name)) ∧
        fileServers (ConfigManager.uninstallPackage fs name).1.amazonQFile
          = some (delKey (ConfigManager.readMergedConfigs fs).mcpServers (replaceSlashes name)) ∧
        (ConfigManager.uninstallPackage fs name).2 = false) ∧
    (getKey (ConfigManager.readMergedConfigs fs).mcpServers (replaceSlashes name) = none →
     (getKey (ConfigManager.readMergedConfigs fs).mcpServers name).isSome →
        fileServers (ConfigManager.uninstallPackage fs name).1.claudeFile
          = some (delKey (ConfigManager.readMergedConfigs fs).mcpServers name) ∧
        fileServers (ConfigManager.uninstallPackage fs name).1.amazonQFile
          = some (delKey (ConfigManager.readMergedConfigs fs).mcpServers name) ∧
        (ConfigManager.uninstallPackage fs name).2 = false) ∧
    (getKey (ConfigManager.readMergedConfigs fs).mcpServers (replaceSlashes name) = none →
     getKey (ConfigManager.readMergedConfigs fs).mcpServers name = none →
        ConfigManager.uninstallPackage fs name = (fs, true)) := by
  refine ⟨fun h1 => ?_, fun h1 h2 => ?_, fun h1 h2 => ?_⟩
  · simp only [ConfigManager.uninstallPackage]
    rw [if_pos h1]
    exact ⟨rfl, rfl, rfl⟩
  · simp only [ConfigManager.uninstallPackage]
    rw [if_neg (by simp [h1]), if_pos h2]
    exact ⟨rfl, rfl, rfl⟩
  · simp only [ConfigManager.uninstallPackage]
    rw [if_neg (by simp [h1]), if_neg (by simp [h2])]

theorem uninstall_removes_or_reports_witness :
    ConfigManager.uninstallPackage fsEmpty "nope" = (fsEmpty, true) ∧
    (ConfigManager.uninstallPackage fsLegacy "a/b").2 = false :=
  ⟨(uninstall_removes_or_reports fsEmpty "nope").2.2 (by decide) (by decide),
   ((uninstall_removes_or_reports fsLegacy "a/b").1 (by decide)).2.2⟩

/-- C7: writing the merge of the two freshly-read host configurations and
then re-reading each host yields `mcpServers` maps equal to the merged
map (hence deep-equal to each other), while each host file's pre-existing
non-`mcpServers` top-level keys are unchanged by the round trip. -/
theorem merge_write_read_roundtrip (fs : FS) :
    (readClaudeConfig (writeConfig fs (readMergedConfigs fs))).mcpServers
      = (readMergedConfigs fs).mcpServers ∧
    (readAmazonQConfig (writeConfig fs (readMergedConfigs fs))).mcpServers
      = (readMergedConfigs fs).mcpServers ∧
    (readClaudeConfig (writeConfig fs (readMergedConfigs fs))).extra
      = fileExtra fs.claudeFile ∧
    (readAmazonQConfig (writeConfig fs (readMergedConfigs fs))).extra
      = fileExtra fs.amazonQFile :=
  ⟨rfl, rfl, rfl, rfl⟩

/-- C8: install is idempotent on the file state: running install twice
with identical arguments (explicit runtime) leaves both host files in a
state identical to running it once; this holds for both the unnamed
module's `installMCPServer` and `ConfigManager.installPackage`. -/
theorem install_idempotent (fs : FS) (name : String)
    (env : Option (List (String × String))) (rt : Runtime)
    (reg : Option Runtime) (uvx : Option String) :
    installMCPServer (installMCPServer fs name env (some rt) reg uvx)
        name env (some rt) reg uvx
      = installMCPServer fs name env (some rt) reg uvx ∧
    ConfigManager.installPackage
        (ConfigManager.installPackage fs name rt env) name rt env
      = ConfigManager.installPackage fs name rt env := by
  constructor
  · simp only [installMCPServer_eq]
    apply writeConfig_writeConfig
    rw [writeConfig_then_merge_servers _ _ _
      (nodup_setKey _ _ _ (readMergedConfigs_servers_nodup fs))]
    exact setKey_eq_self _ _ _ (getKey_setKey_self _ _ _)
  · simp only [configManager_installPackage_eq, configManager_write_eq,
      readMerged_variants_eq]
    apply writeConfig_writeConfig
    rw [writeConfig_then_merge_servers _ _ _
      (nodup_setKey _ _ _ (readMergedConfigs_servers_nodup fs))]
    exact setKey_eq_self _ _ _ (getKey_setKey_self _ _ _)

/-- C9: the two merge implementations agree: on every pair of host file
states, `ConfigManager.readMergedConfigs` and the unnamed module's
`readMergedConfigs` return the same merged configuration. -/
theorem configManager_merge_agrees (fs : FS) :
    ConfigManager.readMergedConfigs fs = readMergedConfigs fs := rfl

/-- C10: when the merged map holds entries under both the dash form and
the raw slash form of a package name, a single uninstall deletes only the
dash-form entry: both files are written with the dash key removed, the
raw-form entry survives unchanged, and `isPackageInstalled` of the
package name is still true afterwards. -/
theorem uninstall_dash_shadows_raw (fs : FS) (name : String)
    (hne : replaceSlashes name ≠ name)
    (hdash : (getKey (ConfigManager.readMergedConfigs fs).mcpServers
        (replaceSlashes name)).isSome)
    (hraw : (getKey (ConfigManager.readMergedConfigs fs).mcpServers name).isSome) :
    fileServers (ConfigManager.uninstallPackage fs name).1.claudeFile
      = some (delKey (ConfigManager.readMergedConfigs fs).mcpServers (replaceSlashes name)) ∧
    fileServers (ConfigManager.uninstallPackage fs name).1.amazonQFile
      = some (delKey (ConfigManager.readMergedConfigs fs).mcpServers (replaceSlashes name)) ∧
    getKey (delKey (ConfigManager.readMergedConfigs fs).mcpServers (replaceSlashes name)) name
      = getKey (ConfigManager.readMergedConfigs fs).mcpServers name ∧
    ConfigManager.isPackageInstalled (ConfigManager.uninstallPackage fs name).1 name
      = true := by
  have hunin : ConfigManager.uninstallPackage fs name
      = (ConfigManager.writeConfig fs
          ⟨delKey (ConfigManager.readMergedConfigs fs).mcpServers (replaceSlashes name),
           (ConfigManager.readMergedConfigs fs).extra⟩, false) := by
    simp only [ConfigManager.uninstallPackage]
    rw [if_pos hdash]
  have hN : ((delKey (readMergedConfigs fs).mcpServers (replaceSlashes name)).map
      Prod.fst).Nodup :=
    nodup_delKey _ _ (readMergedConfigs_servers_nodup fs)
  refine ⟨?_, ?_, getKey_delKey_ne _ _ _ hne, ?_⟩
  · rw [hunin]
    rfl
  · rw [hunin]
    rfl
  · rw [hunin]
    simp only [ConfigManager.isPackageInstalled, readMerged_variants_eq,
      configManager_write_eq]
    rw [writeConfig_then_merge_servers _ _ _ hN, getKey_delKey_self,
      getKey_delKey_ne _ _ _ hne]
    simp only [readMerged_variants_eq] at hraw
    simp [hraw]

theorem uninstall_dash_shadows_raw_witness :
    ConfigManager.isPackageInstalled
        (ConfigManager.uninstallPackage fsLegacy "a/b").1 "a/b" = true :=
  (uninstall_dash_shadows_raw fsLegacy "a/b" (by decide) (by decide) (by decide)).2.2.2
